import Mathlib

/-!
Verification of the Mandelbrot explorer's scalar (CPU) rendering core.

The definitions below are a shallow embedding of `mandelbrot-explorer.js`
(dispatcher side: `renderCPU`, `renderWebGL`, `handleWheel`) and of the web
worker `mandelbrot-worker.js` (functions `calculateMandelbrot`,
`getSmoothIteration`, `getColor`, `complexSquare`).  JavaScript float64
arithmetic is modelled by real arithmetic; JS integers by `ℕ`/`ℤ`.
-/

open scoped Classical

namespace Mandelbrot

/-! ## Escape-time evaluator (worker `calculateMandelbrot`, per sample) -/

/-- Cardioid short-circuit condition of `calculateMandelbrot`:
with `q = (x-0.25)*(x-0.25) + y*y`, the test `q*(q + (x-0.25)) <= 0.25*y*y`. -/
def cardioidTest (x y : ℝ) : Prop :=
  ((x - 0.25) * (x - 0.25) + y * y) *
      (((x - 0.25) * (x - 0.25) + y * y) + (x - 0.25)) ≤ 0.25 * (y * y)

/-- Period-2 bulb short-circuit condition: `(x+1)*(x+1) + y*y <= 0.0625`. -/
def bulbTest (x y : ℝ) : Prop :=
  (x + 1) * (x + 1) + y * y ≤ 0.0625

/-- Result of the worker's main iteration loop: final `zr`, `zi`, the value of
the `iterations` variable at loop exit, and the number of loop bodies that were
executed (instrumentation for the iteration-count side channel). -/
structure LoopResult where
  zr : ℝ
  zi : ℝ
  iterations : ℕ
  steps : ℕ

/-- The worker's `for (let i = 0; i < maxIterations; i++)` loop.
`n` is the number of loop indices still to run, `i` the current index,
`iters` the current value of the `iterations` variable, `steps` the number of
bodies executed so far.  Each body computes `z = complexSquare(z) + c`,
breaks with `iterations = i` when `zr*zr + zi*zi > 256`, and otherwise sets
`iterations = i + 1`. -/
noncomputable def mandelLoop (x y : ℝ) : ℕ → ℕ → ℝ → ℝ → ℕ → ℕ → LoopResult
  | 0, _, zr, zi, iters, steps => ⟨zr, zi, iters, steps⟩
  | n + 1, i, zr, zi, _, steps =>
    let zr' := zr * zr - zi * zi + x
    let zi' := 2 * zr * zi + y
    if 256 < zr' * zr' + zi' * zi' then ⟨zr', zi', i, steps + 1⟩
    else mandelLoop x y n (i + 1) zr' zi' (i + 1) (steps + 1)

/-- The full iteration of `calculateMandelbrot` starting from `z = (0,0)`,
`i = 0`, `iterations = 0`. -/
noncomputable def mandelIterate (x y : ℝ) (maxIterations : ℕ) : LoopResult :=
  mandelLoop x y maxIterations 0 0 0 0 0

/-- The mathematical orbit `z_0 = (0,0)`, `z_{n+1} = z_n^2 + c` with
`c = (x, y)`, written with the same real operations as `complexSquare`. -/
noncomputable def orbit (x y : ℝ) : ℕ → ℝ × ℝ
  | 0 => (0, 0)
  | n + 1 =>
    ((orbit x y n).1 * (orbit x y n).1 - (orbit x y n).2 * (orbit x y n).2 + x,
     2 * (orbit x y n).1 * (orbit x y n).2 + y)

/-- Squared modulus `zr*zr + zi*zi`, the quantity the escape test compares
against 256. -/
noncomputable def normSq (p : ℝ × ℝ) : ℝ := p.1 * p.1 + p.2 * p.2

/-! ## Smoothing (worker `getSmoothIteration`) -/

/-- Worker `getSmoothIteration(zr, zi, iterations, maxIterations)`:
if `iterations >= maxIterations - 1` it returns the raw count, otherwise
`iterations + 1 - log2(log2(modulus))` with `modulus = sqrt(zr*zr + zi*zi)`. -/
noncomputable def getSmoothIteration (zr zi : ℝ) (iterations maxIterations : ℕ) : ℝ :=
  if (maxIterations : ℤ) - 1 ≤ (iterations : ℤ) then (iterations : ℝ)
  else (iterations : ℝ) + 1 - Real.logb 2 (Real.logb 2 (Real.sqrt (zr * zr + zi * zi)))

/-- The ternary `smoothing ? getSmoothIteration(...) : iterations` used in
`calculateMandelbrot`'s color calculation. -/
noncomputable def smoothValue (smoothing : Bool) (zr zi : ℝ) (iterations maxIterations : ℕ) : ℝ :=
  if smoothing then getSmoothIteration zr zi iterations maxIterations else (iterations : ℝ)

/-- Modelled from the spec (sentence for claim C6): the smooth iteration count
the spec ascribes to every escaping evaluation,
`iterationCount + 1 - log2(log2 |z_final|)`.  Used only to compare the worker's
`getSmoothIteration` against the spec's words. -/
noncomputable def specSmoothFormula (zr zi : ℝ) (iterations : ℕ) : ℝ :=
  (iterations : ℝ) + 1 - Real.logb 2 (Real.logb 2 (Real.sqrt (zr * zr + zi * zi)))

/-! ## Color mapper (worker `getColor`) -/

/-- Fire palette (case 1 of `getColor`), evaluated at the already-clamped `t`:
`t = (t*3) % 1` followed by the three-branch piecewise ramp. -/
noncomputable def fireColor (t : ℝ) : ℝ × ℝ × ℝ :=
  let s := Int.fract (t * 3)
  if s < 0.33 then (s * 3 * 0.8, 0, 0)
  else if s < 0.66 then (0.8 + 0.2 * ((s - 0.33) * 3), 0.8 * ((s - 0.33) * 3), 0)
  else (1, 0.8 + 0.2 * ((s - 0.66) * 3), 0.8 * ((s - 0.66) * 3))

/-- One octave of the ultra-smooth palette (loop body of the default case of
`getColor`): `freq = 2^i`, `amp = 0.5^i`, `phase = i*0.1`. -/
noncomputable def ultraStep (t : ℝ) (acc : ℝ × ℝ × ℝ) (i : ℕ) : ℝ × ℝ × ℝ :=
  let freq : ℝ := 2 ^ i
  let amp : ℝ := (0.5 : ℝ) ^ i
  let phase : ℝ := (i : ℝ) * 0.1
  (acc.1 + amp * (0.5 + 0.5 * Real.cos (6.28318 * freq * (t + phase))),
   acc.2.1 + amp * (0.5 + 0.5 * Real.cos (6.28318 * freq * (t + 0.1 + phase))),
   acc.2.2 + amp * (0.5 + 0.5 * Real.cos (6.28318 * freq * (1.5 * t + 0.2 + phase))))

/-- Ultra-smooth palette accumulator (default case of `getColor`): four
octaves with `freq` doubling and `amp` halving. -/
noncomputable def ultraOctaves (t : ℝ) : ℝ × ℝ × ℝ :=
  (List.range 4).foldl (ultraStep t) ((0 : ℝ), (0 : ℝ), (0 : ℝ))

/-- The `switch (colorScheme)` of worker `getColor`, evaluated at the
already-clamped `t`: cases 0-4 are Classic, Fire, Ocean, Psychedelic and
Monochrome; every other id falls to the Ultra-smooth default. -/
noncomputable def paletteRGB (scheme : ℕ) (t : ℝ) : ℝ × ℝ × ℝ :=
  if scheme = 0 then
    (0.5 + 0.5 * Real.cos (6.28318 * (t + 0.0)),
     0.5 + 0.5 * Real.cos (6.28318 * (t + 0.1)),
     0.5 + 0.5 * Real.cos (6.28318 * (t + 0.2)))
  else if scheme = 1 then fireColor t
  else if scheme = 2 then (0, 0.07 + 0.43 * t, 0.15 + 0.65 * t)
  else if scheme = 3 then
    (0.5 + 0.5 * Real.cos (6.28318 * t * 3),
     0.5 + 0.5 * Real.cos (6.28318 * (t * 3 + 0.33)),
     0.5 + 0.5 * Real.cos (6.28318 * (t * 3 + 0.67)))
  else if scheme = 4 then (t, t, t)
  else
    ((ultraOctaves t).1 / 1.875, (ultraOctaves t).2.1 / 1.875,
     (ultraOctaves t).2.2 / 1.875)

/-- Worker `getColor(t, colorScheme)`: clamps `t` to `[0,1]`, evaluates the
selected palette, and returns `[floor(r*255), floor(g*255), floor(b*255)]`. -/
noncomputable def getColor (t0 : ℝ) (scheme : ℕ) : ℤ × ℤ × ℤ :=
  let t := max 0 (min 1 t0)
  (⌊(paletteRGB scheme t).1 * 255⌋, ⌊(paletteRGB scheme t).2.1 * 255⌋,
   ⌊(paletteRGB scheme t).2.2 * 255⌋)

/-! ## Per-sample evaluation (body of the sample loop in `calculateMandelbrot`) -/

/-- Outcome of evaluating one sample: `escaped`/`iterations`/`zr`/`zi` as an
`EscapeResult`, `steps` counting executed bodies of the `z^2 + c` loop, and
`rgb`, the contribution the sample adds to `totalR/totalG/totalB` (a sample
that hits a short-circuit or exhausts the budget contributes nothing, i.e.
`(0,0,0)`). -/
structure SampleResult where
  escaped : Bool
  steps : ℕ
  iterations : ℕ
  zr : ℝ
  zi : ℝ
  rgb : ℤ × ℤ × ℤ

/-- One sample of `calculateMandelbrot` at complex coordinate `(x, y)`:
cardioid test, bulb test, main loop, then the
`iterations < maxIterations` color branch with
`normalized = smoothIter / maxIterations`. -/
noncomputable def sampleEval (x y : ℝ) (maxIterations scheme : ℕ) (smoothing : Bool) :
    SampleResult :=
  if cardioidTest x y then ⟨false, 0, 0, 0, 0, (0, 0, 0)⟩
  else if bulbTest x y then ⟨false, 0, 0, 0, 0, (0, 0, 0)⟩
  else
    let r := mandelIterate x y maxIterations
    if r.iterations < maxIterations then
      ⟨true, r.steps, r.iterations, r.zr, r.zi,
        getColor (smoothValue smoothing r.zr r.zi r.iterations maxIterations /
          (maxIterations : ℝ)) scheme⟩
    else ⟨false, r.steps, r.iterations, r.zr, r.zi, (0, 0, 0)⟩

/-! ## Coordinate mapping and the pixel pipeline -/

/-- Pixel-to-complex mapping of `calculateMandelbrot` (with the `zoom` value
the worker receives in its message):
`x = (px + ox - width/2) / (zoom * width/4) + centerX`,
`y = -(py + oy - height/2) / (zoom * height/4) + centerY`. -/
noncomputable def pixelToComplex (px py ox oy : ℝ) (width height : ℕ)
    (zoom centerX centerY : ℝ) : ℝ × ℝ :=
  ((px + ox - (width : ℝ) / 2) / (zoom * (width : ℝ) / 4) + centerX,
   -(py + oy - (height : ℝ) / 2) / (zoom * (height : ℝ) / 4) + centerY)

/-- Sample offsets of `calculateMandelbrot`: four sub-pixel offsets when
antialiasing is on, the single `(0,0)` offset otherwise. -/
def sampleOffsets (antialiasing : Bool) : List (ℝ × ℝ) :=
  if antialiasing then [(-0.25, -0.25), (0.25, -0.25), (-0.25, 0.25), (0.25, 0.25)]
  else [(0, 0)]

/-- The `params` object posted to a worker by `renderCPU`. -/
structure WorkerParams where
  startX : ℕ
  endX : ℕ
  startY : ℕ
  endY : ℕ
  width : ℕ
  height : ℕ
  centerX : ℝ
  centerY : ℝ
  zoom : ℝ
  maxIterations : ℕ
  colorScheme : ℕ
  smoothing : Bool
  antialiasing : Bool

/-- Round to nearest with ties to even, the rounding JavaScript applies when a
float is stored into a `Uint8ClampedArray`. -/
noncomputable def roundTiesEven (x : ℝ) : ℤ :=
  if Int.fract x = 1 / 2 then (if Even ⌊x⌋ then ⌊x⌋ else ⌊x⌋ + 1) else round x

/-- `Uint8ClampedArray` store conversion: clamp to `[0, 255]`, then round to
nearest (ties to even). -/
noncomputable def clampU8 (x : ℝ) : ℕ :=
  if x ≤ 0 then 0 else if 255 ≤ x then 255 else (roundTiesEven x).toNat

/-- The four bytes `calculateMandelbrot` stores for pixel `(px, py)`:
the per-sample contributions are accumulated into `totalR/totalG/totalB`,
divided by the number of samples, stored through the clamped-array conversion,
and the alpha byte is set to 255. -/
noncomputable def pixelBytes (p : WorkerParams) (px py : ℕ) : ℕ × ℕ × ℕ × ℕ :=
  let offs := sampleOffsets p.antialiasing
  let tot :=
    offs.foldl
      (fun (acc : ℤ × ℤ × ℤ) o =>
        let c := pixelToComplex (px : ℝ) (py : ℝ) o.1 o.2 p.width p.height p.zoom
          p.centerX p.centerY
        let r := sampleEval c.1 c.2 p.maxIterations p.colorScheme p.smoothing
        (acc.1 + r.rgb.1, acc.2.1 + r.rgb.2.1, acc.2.2 + r.rgb.2.2))
      ((0 : ℤ), (0 : ℤ), (0 : ℤ))
  (clampU8 ((tot.1 : ℝ) / (offs.length : ℝ)),
   clampU8 ((tot.2.1 : ℝ) / (offs.length : ℝ)),
   clampU8 ((tot.2.2 : ℝ) / (offs.length : ℝ)), 255)

/-- Write the four bytes of one pixel at byte index `idx` of a buffer. -/
def storePixel (buf : ℕ → ℕ) (idx r g b a : ℕ) : ℕ → ℕ :=
  Function.update (Function.update (Function.update (Function.update buf idx r)
    (idx + 1) g) (idx + 2) b) (idx + 3) a

/-- The `imageData` buffer returned by one worker: a zero-initialized
`Uint8ClampedArray(width * height * 4)` into which the worker writes each of
its band's pixels at the ABSOLUTE byte index `(py * width + px) * 4`. -/
noncomputable def workerBuffer (p : WorkerParams) : ℕ → ℕ :=
  (List.range' p.startY (p.endY - p.startY)).foldl
    (fun buf py =>
      (List.range' p.startX (p.endX - p.startX)).foldl
        (fun buf px =>
          let v := pixelBytes p px py
          storePixel buf ((py * p.width + px) * 4) v.1 v.2.1 v.2.2.1 v.2.2.2)
        buf)
    (fun _ => 0)

/-! ## Dispatcher (`renderCPU`), iteration policy and band partition -/

/-- `renderWebGL`'s adaptive iteration count:
`min(ceiling, max(500, floor(500 + max(1, log10 zoom) * 500)))`. -/
noncomputable def computeMaxIterationsGPU (zoom : ℝ) (ceiling : ℤ) : ℤ :=
  min ceiling (max 500 ⌊500 + max 1 (Real.logb 10 zoom) * 500⌋)

/-- `renderCPU`'s adaptive iteration count:
`min(ceiling, max(1000, floor(1000 + max(1, log10 zoom) * 1000)))`. -/
noncomputable def computeMaxIterationsCPU (zoom : ℝ) (ceiling : ℤ) : ℤ :=
  min ceiling (max 1000 ⌊1000 + max 1 (Real.logb 10 zoom) * 1000⌋)

/-- Application state read by `renderCPU` (canvas size, view parameters,
quality settings and worker pool size). -/
structure AppState where
  width : ℕ
  height : ℕ
  centerX : ℝ
  centerY : ℝ
  zoom : ℝ
  maxIterations : ℕ
  qualityIterations : ℕ
  adaptiveQuality : Bool
  colorScheme : ℕ
  smoothing : Bool
  antialiasing : Bool
  numWorkers : ℕ

/-- The `iterations` value `renderCPU` computes before dispatching. -/
noncomputable def cpuIterations (s : AppState) : ℤ :=
  if s.adaptiveQuality then computeMaxIterationsCPU s.zoom (s.maxIterations : ℤ)
  else (s.qualityIterations : ℤ)

/-- `Math.ceil(height / numWorkers)`, the number of rows per band. -/
def rowsPerWorker (height numWorkers : ℕ) : ℕ :=
  (height + numWorkers - 1) / numWorkers

/-- Band construction loop of `renderCPU`: for `i` from the current index,
`startY = i * rowsPerWorker`, `endY = min((i+1) * rowsPerWorker, height)`,
breaking out of the loop as soon as `startY >= height`.  `k` counts the
remaining loop indices. -/
def bandsAux (rpw height : ℕ) : ℕ → ℕ → List (ℕ × ℕ)
  | 0, _ => []
  | k + 1, i =>
    if height ≤ i * rpw then []
    else (i * rpw, min ((i + 1) * rpw) height) :: bandsAux rpw height k (i + 1)

/-- The bands `renderCPU` dispatches, in dispatch order. -/
def bands (height numWorkers : ℕ) : List (ℕ × ℕ) :=
  bandsAux (rowsPerWorker height numWorkers) height numWorkers 0

/-- The message `renderCPU` posts for one band: full pixel-column range, the
band's row range, the canvas size, the view center, `zoom * 200`, the computed
iteration count, and `antialiasing: false` regardless of the app state. -/
noncomputable def workerParamsFor (s : AppState) (band : ℕ × ℕ) : WorkerParams :=
  ⟨0, s.width, band.1, band.2, s.width, s.height, s.centerX, s.centerY,
    s.zoom * 200, (cpuIterations s).toNat, s.colorScheme, s.smoothing, false⟩

/-- Result assembly of `renderCPU`: starting from a zero-filled
`ImageData(width, height)`, copy each returned band using the returned bounds,
reading the band's buffer at the band-RELATIVE byte index
`((y - startY) * width + x) * 4` and writing the frame at
`(y * width + x) * 4`. -/
def assemble (width : ℕ) (results : List (ℕ × ℕ × (ℕ → ℕ))) : ℕ → ℕ :=
  results.foldl
    (fun img res =>
      (List.range' res.1 (res.2.1 - res.1)).foldl
        (fun img y =>
          (List.range width).foldl
            (fun img x =>
              let srcIdx := ((y - res.1) * width + x) * 4
              let dstIdx := (y * width + x) * 4
              storePixel img dstIdx (res.2.2 srcIdx) (res.2.2 (srcIdx + 1))
                (res.2.2 (srcIdx + 2)) (res.2.2 (srcIdx + 3)))
            img)
        img)
    (fun _ => 0)

/-- The framebuffer `renderCPU` draws: every band is evaluated by a worker and
the returned buffers are assembled by row bounds. -/
noncomputable def renderCPUFramebuffer (s : AppState) : ℕ → ℕ :=
  assemble s.width
    ((bands s.height s.numWorkers).map
      (fun b => (b.1, b.2, workerBuffer (workerParamsFor s b))))

/-! ## Wheel zoom (`handleWheel`) -/

/-- View parameters mutated by `handleWheel`. -/
structure Viewport where
  centerX : ℝ
  centerY : ℝ
  zoom : ℝ

/-- The complex coordinate `handleWheel` computes for the cursor position:
`complexX = (mouseX - width/2) / (zoom * width/4) + centerX`,
`complexY = centerY - (mouseY - height/2) / (zoom * height/4)`. -/
noncomputable def cursorComplex (v : Viewport) (mouseX mouseY : ℝ) (width height : ℕ) :
    ℝ × ℝ :=
  ((mouseX - (width : ℝ) / 2) / (v.zoom * (width : ℝ) / 4) + v.centerX,
   v.centerY - (mouseY - (height : ℝ) / 2) / (v.zoom * (height : ℝ) / 4))

/-- The state update `handleWheel` performs: record the cursor's complex
coordinate, multiply the zoom by the wheel factor, and re-derive the center so
the cursor coordinate is preserved. -/
noncomputable def wheelZoom (v : Viewport) (factor mouseX mouseY : ℝ)
    (width height : ℕ) : Viewport :=
  let cx := (mouseX - (width : ℝ) / 2) / (v.zoom * (width : ℝ) / 4) + v.centerX
  let cy := v.centerY - (mouseY - (height : ℝ) / 2) / (v.zoom * (height : ℝ) / 4)
  let z := v.zoom * factor
  ⟨cx - (mouseX - (width : ℝ) / 2) / (z * (width : ℝ) / 4),
   cy + (mouseY - (height : ℝ) / 2) / (z * (height : ℝ) / 4), z⟩

/-- The complex coordinate the dispatched scalar pipeline actually assigns to
pixel `(px, py)` with sample offset `(ox, oy)`: the worker formula evaluated at
the parameters `renderCPU` posts. -/
noncomputable def dispatchedCoord (s : AppState) (band : ℕ × ℕ) (px py ox oy : ℝ) :
    ℝ × ℝ :=
  pixelToComplex px py ox oy (workerParamsFor s band).width
    (workerParamsFor s band).height (workerParamsFor s band).zoom
    (workerParamsFor s band).centerX (workerParamsFor s band).centerY

/-- Modelled from the claim (C2 wording): the coordinate
`x = (px + offsetX - width/2) / (zoom * width/4) + centerReal`,
`y = -(py + offsetY - height/2) / (zoom * height/4) + centerImag`
where `zoom` is the VIEWPORT's zoom value.  Used only to compare the claim's
formula with the dispatched pipeline. -/
noncomputable def claimedCoord (px py ox oy : ℝ) (width height : ℕ) (v : Viewport) :
    ℝ × ℝ :=
  ((px + ox - (width : ℝ) / 2) / (v.zoom * (width : ℝ) / 4) + v.centerX,
   -(py + oy - (height : ℝ) / 2) / (v.zoom * (height : ℝ) / 4) + v.centerY)

/-! ## Theorems -/

/-- Claim C8: for every cursor pixel, viewport and zoom factor, mapping the
cursor pixel to a complex coordinate before the zoom change and mapping it
again after the new center has been re-derived yields the same complex
coordinate, exactly in real arithmetic. -/
theorem C8_zoom_at_cursor_invariant (v : Viewport) (factor mouseX mouseY : ℝ)
    (width height : ℕ) :
    cursorComplex (wheelZoom v factor mouseX mouseY width height) mouseX mouseY
        width height =
      cursorComplex v mouseX mouseY width height := by
  simp only [cursorComplex, wheelZoom, Prod.mk.injEq]
  constructor <;> ring

/-- Claim C2, counterexample: the dispatched scalar pipeline does NOT map
pixels using the viewport's zoom value.  With a 4×4 canvas, viewport
`{centerReal = 0, centerImag = 0, zoom = 1}` and pixel `(0,0)` with zero
sample offset, the pipeline produces `x = -0.01` (because `renderCPU` posts
`zoom * 200`), while the claimed formula with the viewport's zoom gives
`x = -2`. -/
theorem C2_counterexample :
    dispatchedCoord ⟨4, 4, 0, 0, 1, 0, 0, false, 0, false, false, 1⟩ (0, 4) 0 0 0 0 ≠
      claimedCoord 0 0 0 0 4 4 ⟨0, 0, 1⟩ := by
  simp only [dispatchedCoord, claimedCoord, pixelToComplex, workerParamsFor, ne_eq,
    Prod.mk.injEq, not_and]
  intro h
  norm_num at h

/-- Claim C2 as amended: the scalar pipeline maps pixel `(px, py)` with sample
offset `(ox, oy)` to
`x = (px + ox - width/2) / (zoomParam * width/4) + centerReal` and
`y = -(py + oy - height/2) / (zoomParam * height/4) + centerImag`, where
`zoomParam` is 200 times the viewport's zoom value (`renderCPU` posts
`zoom * 200` to the worker). -/
theorem C2_amended (s : AppState) (band : ℕ × ℕ) (px py ox oy : ℝ) :
    dispatchedCoord s band px py ox oy =
      claimedCoord px py ox oy s.width s.height ⟨s.centerX, s.centerY, s.zoom * 200⟩ :=
  rfl

/-- Claim C3, counterexample: at `zoom = 1` with ceiling 2000 neither path
returns its configured lower bound: the accelerated path returns 1000 (not
500) and the software path returns 2000 (not 1000), because
`max(1, log10 1) = 1` makes the formula produce `base + step`. -/
theorem C3_counterexample :
    computeMaxIterationsGPU 1 2000 ≠ 500 ∧ computeMaxIterationsCPU 1 2000 ≠ 1000 := by
  have h1 : Real.logb 10 (1 : ℝ) = 0 := Real.logb_one
  have hg : computeMaxIterationsGPU 1 2000 = 1000 := by
    rw [computeMaxIterationsGPU, h1]
    norm_num
  have hc : computeMaxIterationsCPU 1 2000 = 2000 := by
    rw [computeMaxIterationsCPU, h1]
    norm_num
  rw [hg, hc]
  norm_num

/-- Claim C3 as amended: with `zoom = 1` and ceiling 2000 the policy returns
`base + step` — 1000 on the accelerated path and 2000 on the software path
(the software value already sits at the ceiling) — and with `zoom = 1e6` both
paths clamp at 2000. -/
theorem C3_amended :
    computeMaxIterationsGPU 1 2000 = 1000 ∧ computeMaxIterationsCPU 1 2000 = 2000 ∧
      computeMaxIterationsGPU 1000000 2000 = 2000 ∧
      computeMaxIterationsCPU 1000000 2000 = 2000 := by
  have h1 : Real.logb 10 (1 : ℝ) = 0 := Real.logb_one
  have h6 : Real.logb 10 (1000000 : ℝ) = 6 := by
    rw [show (1000000 : ℝ) = (10 : ℝ) ^ (6 : ℝ) by
      rw [show (6 : ℝ) = ((6 : ℕ) : ℝ) by norm_num, Real.rpow_natCast]
      norm_num]
    exact Real.logb_rpow (by norm_num) (by norm_num)
  refine ⟨?_, ?_, ?_, ?_⟩ <;>
    simp only [computeMaxIterationsGPU, computeMaxIterationsCPU, h1, h6] <;> norm_num

/-- Claim C10: the scalar render path's output is independent of the
`antialiasing` flag: `renderCPU` posts `antialiasing: false` in every worker
message, so two application states differing only in that flag produce
byte-identical framebuffers, and the dispatched workers always use the single
`(0,0)` sample offset (the four-sample averaging branch is never exercised). -/
theorem C10_antialiasing_independent (s : AppState) (a b : Bool) :
    renderCPUFramebuffer {s with antialiasing := a} =
        renderCPUFramebuffer {s with antialiasing := b} ∧
      ∀ band : ℕ × ℕ,
        (workerParamsFor {s with antialiasing := a} band).antialiasing = false ∧
          sampleOffsets ((workerParamsFor {s with antialiasing := a} band).antialiasing) =
            [(0, 0)] :=
  ⟨rfl, fun _ => ⟨rfl, rfl⟩⟩

/-- Claim C5: every point satisfying the cardioid test or the period-2 bulb
test is short-circuited: the sample evaluator reports `escaped = false`,
executes zero bodies of the `z^2 + c` loop, and contributes the interior
(black) color. -/
theorem C5_short_circuit (x y : ℝ) (maxIterations scheme : ℕ) (smoothing : Bool)
    (h : cardioidTest x y ∨ bulbTest x y) :
    (sampleEval x y maxIterations scheme smoothing).escaped = false ∧
      (sampleEval x y maxIterations scheme smoothing).steps = 0 ∧
      (sampleEval x y maxIterations scheme smoothing).rgb = (0, 0, 0) := by
  by_cases hc : cardioidTest x y
  · simp [sampleEval, hc]
  · rcases h with h | h
    · exact absurd h hc
    · simp [sampleEval, hc, h]

/-- Claim C5, witness: the origin `(0, 0)` satisfies the cardioid test and is
short-circuited. -/
theorem C5_short_circuit_witness :
    (cardioidTest 0 0 ∨ bulbTest 0 0) ∧
      ((sampleEval 0 0 100 0 true).escaped = false ∧
        (sampleEval 0 0 100 0 true).steps = 0 ∧
        (sampleEval 0 0 100 0 true).rgb = (0, 0, 0)) :=
  ⟨Or.inl (by norm_num [cardioidTest]),
    C5_short_circuit 0 0 100 0 true (Or.inl (by norm_num [cardioidTest]))⟩

/-- Evaluation of the worker loop at `c = (2, 2)` with budget 3: the orbit
escapes on the third body (`z_3 = (-94, 42)`, `|z_3|^2 = 10600 > 256`) and the
`iterations` variable is left at 2. -/
lemma mandelIterate_two_two : mandelIterate 2 2 3 = ⟨-94, 42, 2, 3⟩ := by
  rw [mandelIterate, mandelLoop]
  norm_num
  rw [mandelLoop]
  norm_num
  rw [mandelLoop]
  norm_num

/-- Claim C6, counterexample: the evaluation at `c = (2, 2)` with budget 3
escapes before the budget (`iterations = 2 < 3`), yet with smoothing enabled
the worker's smooth count is the raw count 2 — not
`iterations + 1 - log2(log2 |z_final|)` — because `getSmoothIteration`
returns the raw count whenever `iterations >= maxIterations - 1`. -/
theorem C6_counterexample :
    (mandelIterate 2 2 3).iterations < 3 ∧
      smoothValue true (mandelIterate 2 2 3).zr (mandelIterate 2 2 3).zi
          (mandelIterate 2 2 3).iterations 3 ≠
        specSmoothFormula (mandelIterate 2 2 3).zr (mandelIterate 2 2 3).zi
          (mandelIterate 2 2 3).iterations := by
  rw [mandelIterate_two_two]
  refine ⟨by norm_num, ?_⟩
  have hval : smoothValue true (-94 : ℝ) 42 2 3 = 2 := by
    rw [smoothValue, if_pos rfl, getSmoothIteration, if_pos (by norm_num)]
    norm_num
  have harg : (-94 : ℝ) * -94 + 42 * 42 = 10600 := by norm_num
  have hs : (16 : ℝ) < Real.sqrt 10600 := by
    rw [show (16 : ℝ) = Real.sqrt (16 ^ 2) by
      rw [Real.sqrt_sq (by norm_num)]]
    exact Real.sqrt_lt_sqrt (by norm_num) (by norm_num)
  have h16 : Real.logb 2 (16 : ℝ) = 4 := by
    rw [show (16 : ℝ) = (2 : ℝ) ^ (4 : ℝ) by
      rw [show (4 : ℝ) = ((4 : ℕ) : ℝ) by norm_num, Real.rpow_natCast]
      norm_num]
    exact Real.logb_rpow (by norm_num) (by norm_num)
  have h4 : Real.logb 2 (4 : ℝ) = 2 := by
    rw [show (4 : ℝ) = (2 : ℝ) ^ (2 : ℝ) by
      rw [show (2 : ℝ) = ((2 : ℕ) : ℝ) by norm_num, Real.rpow_natCast]
      norm_num]
    exact Real.logb_rpow (by norm_num) (by norm_num)
  have hL1 : (4 : ℝ) < Real.logb 2 (Real.sqrt 10600) := by
    have h' := @Real.logb_lt_logb 2 16 (Real.sqrt 10600) (by norm_num) (by norm_num) hs
    rw [h16] at h'
    exact h'
  have hL2 : (2 : ℝ) < Real.logb 2 (Real.logb 2 (Real.sqrt 10600)) := by
    have h' := @Real.logb_lt_logb 2 4 (Real.logb 2 (Real.sqrt 10600)) (by norm_num)
      (by norm_num) hL1
    rw [h4] at h'
    exact h'
  show smoothValue true (-94 : ℝ) 42 2 3 ≠ specSmoothFormula (-94 : ℝ) 42 2
  rw [hval, specSmoothFormula, harg]
  intro h
  push_cast at h
  linarith

/-- Claim C6 as amended: with smoothing enabled the smooth count equals
`iterations + 1 - log2(log2 |z_final|)` only when
`iterations < maxIterations - 1`; when `iterations >= maxIterations - 1`
(which includes escapes on the final loop index) the worker returns the raw
integer count; with smoothing disabled the smooth count is always the raw
count. -/
theorem C6_amended (zr zi : ℝ) (iterations maxIterations : ℕ) :
    ((iterations : ℤ) < (maxIterations : ℤ) - 1 →
        smoothValue true zr zi iterations maxIterations =
          specSmoothFormula zr zi iterations) ∧
      ((maxIterations : ℤ) - 1 ≤ (iterations : ℤ) →
        smoothValue true zr zi iterations maxIterations = (iterations : ℝ)) ∧
      smoothValue false zr zi iterations maxIterations = (iterations : ℝ) := by
  refine ⟨fun h => ?_, fun h => ?_, rfl⟩
  · rw [smoothValue, if_pos rfl, getSmoothIteration, if_neg (not_le.mpr h),
      specSmoothFormula]
  · rw [smoothValue, if_pos rfl, getSmoothIteration, if_pos h]

/-- Claim C6 witness: a concrete instantiation of the amended claim with
`iterations = 0`, `maxIterations = 5`. -/
theorem C6_amended_witness :
    ((0 : ℤ) < (5 : ℤ) - 1) ∧ smoothValue true 3 4 0 5 = specSmoothFormula 3 4 0 :=
  ⟨by norm_num, by
    have h := (C6_amended 3 4 0 5).1 (by norm_num)
    simpa using h⟩

/-! ### Partition lemmas (claim C7) -/

lemma rowsPerWorker_pos (h p : ℕ) (hp : 1 ≤ p) (hh : 0 < h) : 0 < rowsPerWorker h p :=
  Nat.div_pos (by omega) (by omega)

lemma height_le_mul (h p : ℕ) (hp : 1 ≤ p) : h ≤ p * rowsPerWorker h p := by
  unfold rowsPerWorker
  have e := Nat.div_add_mod (h + p - 1) p
  have hm : (h + p - 1) % p < p := Nat.mod_lt _ (by omega)
  obtain ⟨a, ha⟩ : ∃ a, p * ((h + p - 1) / p) = a := ⟨_, rfl⟩
  rw [ha] at e ⊢
  omega

lemma mem_bandsAux (rpw h : ℕ) :
    ∀ k i b, b ∈ bandsAux rpw h k i ↔
      ∃ j, j < k ∧ (i + j) * rpw < h ∧
        b = ((i + j) * rpw, min ((i + j + 1) * rpw) h) := by
  intro k
  induction k with
  | zero => intro i b; simp [bandsAux]
  | succ k ih =>
    intro i b
    rw [bandsAux]
    by_cases hb : h ≤ i * rpw
    · rw [if_pos hb]
      constructor
      · intro hmem
        exact absurd hmem (List.not_mem_nil b)
      · rintro ⟨j, _, hlt, _⟩
        exact absurd hlt
          (not_lt.mpr (hb.trans (Nat.mul_le_mul_right rpw (Nat.le_add_right i j))))
    · rw [if_neg hb]
      simp only [List.mem_cons, ih]
      constructor
      · rintro (rfl | ⟨j, hj, hlt, rfl⟩)
        · exact ⟨0, Nat.succ_pos k, by simpa using not_le.mp hb, by simp⟩
        · have e1 : i + (j + 1) = i + 1 + j := by omega
          refine ⟨j + 1, by omega, ?_, ?_⟩
          · rw [e1]; exact hlt
          · rw [e1]
      · rintro ⟨j, hj, hlt, rfl⟩
        cases j with
        | zero => left; simp
        | succ j' =>
          right
          have e1 : i + (j' + 1) = i + 1 + j' := by omega
          refine ⟨j', by omega, ?_, ?_⟩
          · rw [← e1]; exact hlt
          · rw [e1]

lemma bands_mem (h p : ℕ) (b : ℕ × ℕ) :
    b ∈ bands h p ↔
      ∃ j, j < p ∧ j * rowsPerWorker h p < h ∧
        b = (j * rowsPerWorker h p, min ((j + 1) * rowsPerWorker h p) h) := by
  simpa using mem_bandsAux (rowsPerWorker h p) h p 0 b

lemma bandsAux_sorted (rpw h : ℕ) :
    ∀ k i, (bandsAux rpw h k i).Pairwise (fun b₁ b₂ => b₁.2 ≤ b₂.1) := by
  intro k
  induction k with
  | zero => intro i; simp [bandsAux]
  | succ k ih =>
    intro i
    rw [bandsAux]
    by_cases hb : h ≤ i * rpw
    · rw [if_pos hb]; exact List.Pairwise.nil
    · rw [if_neg hb]
      refine List.Pairwise.cons ?_ (ih (i + 1))
      intro b hbmem
      rw [mem_bandsAux] at hbmem
      obtain ⟨j, _, _, rfl⟩ := hbmem
      exact le_trans (min_le_left _ _) (Nat.mul_le_mul_right rpw (by omega))

lemma bandsAux_chain (rpw h : ℕ) :
    ∀ k i, (bandsAux rpw h k i).Chain' (fun b₁ b₂ => b₁.2 = b₂.1) := by
  intro k
  induction k with
  | zero => intro i; simp [bandsAux]
  | succ k ih =>
    intro i
    rw [bandsAux]
    by_cases hb : h ≤ i * rpw
    · rw [if_pos hb]; simp
    · rw [if_neg hb, List.chain'_cons']
      refine ⟨?_, ih (i + 1)⟩
      intro y hy
      cases k with
      | zero => simp [bandsAux] at hy
      | succ k' =>
        rw [bandsAux] at hy
        by_cases hb2 : h ≤ (i + 1) * rpw
        · rw [if_pos hb2] at hy; simp at hy
        · rw [if_neg hb2] at hy
          simp only [List.head?_cons, Option.mem_def, Option.some.injEq] at hy
          subst hy
          exact min_eq_left (le_of_lt (not_le.mp hb2))

/-- Claim C7: for every height and every parallelism at least 1, the bands
`renderCPU` dispatches are ordered and non-overlapping, consecutive bands
meet exactly (no gap), every row below `height` lies in some band and no
other row does, and every band is non-empty with at most
`ceil(height/parallelism)` rows. -/
theorem C7_partition (height parallelism : ℕ) (hp : 1 ≤ parallelism) :
    (∀ r, r < height ↔ ∃ b ∈ bands height parallelism, b.1 ≤ r ∧ r < b.2) ∧
      (bands height parallelism).Pairwise (fun b₁ b₂ => b₁.2 ≤ b₂.1) ∧
      (bands height parallelism).Chain' (fun b₁ b₂ => b₁.2 = b₂.1) ∧
      ∀ b ∈ bands height parallelism,
        0 < b.2 - b.1 ∧ b.2 - b.1 ≤ rowsPerWorker height parallelism := by
  refine ⟨fun r => ?_, bandsAux_sorted _ _ _ _, bandsAux_chain _ _ _ _, fun b hb => ?_⟩
  · constructor
    · intro hr
      have hh : 0 < height := by omega
      have hw : 0 < rowsPerWorker height parallelism := rowsPerWorker_pos _ _ hp hh
      set w := rowsPerWorker height parallelism with hwdef
      refine ⟨(r / w * w, min ((r / w + 1) * w) height), ?_, ?_, ?_⟩
      · rw [bands_mem]
        refine ⟨r / w, ?_, ?_, rfl⟩
        · rw [Nat.div_lt_iff_lt_mul hw]
          calc r < height := hr
            _ ≤ parallelism * w := height_le_mul _ _ hp
            _ = w * parallelism := Nat.mul_comm _ _
            _ ≤ parallelism * w := le_of_eq (Nat.mul_comm _ _)
        · exact lt_of_le_of_lt (Nat.div_mul_le_self r w) hr
      · exact Nat.div_mul_le_self r w
      · refine lt_min ?_ hr
        have hm := Nat.mod_lt r hw
        have h2 : r < w * (r / w) + w := by
          conv_lhs => rw [← Nat.div_add_mod r w]
          exact Nat.add_lt_add_left hm _
        have h3 : (r / w + 1) * w = w * (r / w) + w := by ring
        rw [h3]
        exact h2
    · rintro ⟨b, hbmem, _, hlt⟩
      rw [bands_mem] at hbmem
      obtain ⟨j, _, _, rfl⟩ := hbmem
      exact lt_of_lt_of_le hlt (min_le_right _ _)
  · rw [bands_mem] at hb
    obtain ⟨j, _, hlt, rfl⟩ := hb
    set w := rowsPerWorker height parallelism with hwdef
    have hh : 0 < height := by omega
    have hw : 0 < w := rowsPerWorker_pos _ _ hp hh
    have e : (j + 1) * w = j * w + w := by ring
    constructor
    · refine Nat.sub_pos_of_lt (lt_min ?_ hlt)
      rw [e]
      exact Nat.lt_add_of_pos_right hw
    · rw [Nat.sub_le_iff_le_add]
      exact le_trans (min_le_left _ _) (by rw [e]; exact le_of_eq (Nat.add_comm _ _))

/-- Claim C7 witness: the partition of 2 rows over 2 workers. -/
theorem C7_partition_witness :
    (1 ≤ 2) ∧
      ((∀ r, r < 2 ↔ ∃ b ∈ bands 2 2, b.1 ≤ r ∧ r < b.2) ∧
        (bands 2 2).Pairwise (fun b₁ b₂ => b₁.2 ≤ b₂.1) ∧
        (bands 2 2).Chain' (fun b₁ b₂ => b₁.2 = b₂.1) ∧
        ∀ b ∈ bands 2 2, 0 < b.2 - b.1 ∧ b.2 - b.1 ≤ rowsPerWorker 2 2) :=
  ⟨by norm_num, C7_partition 2 2 (by norm_num)⟩

/-! ### Loop characterization (claim C4) -/

lemma orbit_zero (x y : ℝ) : orbit x y 0 = (0, 0) := rfl

lemma mandelLoop_no_escape (x y : ℝ) :
    ∀ n i s, (∀ m, i < m → m ≤ i + n → normSq (orbit x y m) ≤ 256) →
      mandelLoop x y n i (orbit x y i).1 (orbit x y i).2 i s =
        ⟨(orbit x y (i + n)).1, (orbit x y (i + n)).2, i + n, s + n⟩ := by
  intro n
  induction n with
  | zero => intro i s _; simp [mandelLoop]
  | succ n ih =>
    intro i s hno
    rw [mandelLoop]
    have hz1 : (orbit x y i).1 * (orbit x y i).1 - (orbit x y i).2 * (orbit x y i).2 + x =
        (orbit x y (i + 1)).1 := rfl
    have hz2 : 2 * (orbit x y i).1 * (orbit x y i).2 + y = (orbit x y (i + 1)).2 := rfl
    rw [hz1, hz2]
    have hcond : ¬ 256 < (orbit x y (i + 1)).1 * (orbit x y (i + 1)).1 +
        (orbit x y (i + 1)).2 * (orbit x y (i + 1)).2 :=
      not_lt.mpr (hno (i + 1) (by omega) (by omega))
    rw [if_neg hcond]
    have := ih (i + 1) (s + 1) (fun m hm1 hm2 => hno m (by omega) (by omega))
    rw [this]
    have e1 : i + 1 + n = i + (n + 1) := by omega
    have e2 : s + 1 + n = s + (n + 1) := by omega
    rw [e1, e2]

lemma mandelLoop_escape (x y : ℝ) :
    ∀ n i s m₀, i < m₀ → m₀ ≤ i + n → 256 < normSq (orbit x y m₀) →
      (∀ m, i < m → m < m₀ → normSq (orbit x y m) ≤ 256) →
      mandelLoop x y n i (orbit x y i).1 (orbit x y i).2 i s =
        ⟨(orbit x y m₀).1, (orbit x y m₀).2, m₀ - 1, s + (m₀ - i)⟩ := by
  intro n
  induction n with
  | zero => intro i s m₀ h1 h2 _ _; exact absurd h2 (by omega)
  | succ n ih =>
    intro i s m₀ h1 h2 hesc hmin
    rw [mandelLoop]
    have hz1 : (orbit x y i).1 * (orbit x y i).1 - (orbit x y i).2 * (orbit x y i).2 + x =
        (orbit x y (i + 1)).1 := rfl
    have hz2 : 2 * (orbit x y i).1 * (orbit x y i).2 + y = (orbit x y (i + 1)).2 := rfl
    rw [hz1, hz2]
    by_cases hc : 256 < normSq (orbit x y (i + 1))
    · have hc' : 256 < (orbit x y (i + 1)).1 * (orbit x y (i + 1)).1 +
          (orbit x y (i + 1)).2 * (orbit x y (i + 1)).2 := hc
      have hm0 : m₀ = i + 1 := by
        by_contra hne
        have hlt : i + 1 < m₀ := by omega
        exact absurd hc (not_lt.mpr (hmin (i + 1) (by omega) hlt))
      subst hm0
      rw [if_pos hc']
      have e1 : i + 1 - 1 = i := by omega
      have e2 : i + 1 - i = 1 := by omega
      rw [e1, e2]
    · have hc' : ¬ 256 < (orbit x y (i + 1)).1 * (orbit x y (i + 1)).1 +
          (orbit x y (i + 1)).2 * (orbit x y (i + 1)).2 := hc
      rw [if_neg hc']
      have h3 : i + 1 < m₀ := by
        rcases Nat.lt_or_ge (i + 1) m₀ with h | h
        · exact h
        · have hm0 : m₀ = i + 1 := by omega
          rw [hm0] at hesc
          exact absurd hesc hc
      have := ih (i + 1) (s + 1) m₀ h3 (by omega) hesc
        (fun m hm1 hm2 => hmin m (by omega) hm2)
      rw [this]
      have e : s + 1 + (m₀ - (i + 1)) = s + (m₀ - i) := by omega
      rw [e]

lemma mandelIterate_escaped_iff (x y : ℝ) (mi : ℕ) :
    (mandelIterate x y mi).iterations < mi ↔
      ∃ m, 1 ≤ m ∧ m ≤ mi ∧ 256 < normSq (orbit x y m) := by
  have hinit : mandelLoop x y mi 0 (orbit x y 0).1 (orbit x y 0).2 0 0 =
      mandelIterate x y mi := by
    rw [orbit_zero, mandelIterate]
  constructor
  · intro h
    by_contra hno
    push_neg at hno
    have hall : ∀ m, 0 < m → m ≤ 0 + mi → normSq (orbit x y m) ≤ 256 := by
      intro m hm1 hm2
      exact hno m (by omega) (by omega)
    have := mandelLoop_no_escape x y mi 0 0 hall
    rw [hinit] at this
    rw [this] at h
    dsimp only at h
    omega
  · rintro ⟨m, hm1, hm2, hesc⟩
    have hex : ∃ m', 1 ≤ m' ∧ 256 < normSq (orbit x y m') := ⟨m, hm1, hesc⟩
    obtain ⟨hm01, hm0esc⟩ := Nat.find_spec hex
    have hle : Nat.find hex ≤ m := Nat.find_min' hex ⟨hm1, hesc⟩
    have hmin : ∀ m', 0 < m' → m' < Nat.find hex → normSq (orbit x y m') ≤ 256 := by
      intro m' h1 h2
      have hnot := Nat.find_min hex h2
      push_neg at hnot
      exact hnot (by omega)
    have := mandelLoop_escape x y mi 0 0 (Nat.find hex) (by omega) (by omega) hm0esc
      (fun m' hm'1 hm'2 => hmin m' (by omega) hm'2)
    rw [hinit] at this
    rw [this]
    dsimp only
    omega

/-- Claim C4: for every point not short-circuited by the interior tests, the
evaluator escapes exactly when some orbit iterate within the budget has
`|z|^2 > 256`; when the budget is exhausted without escape it reports
`escaped = false` and the sample's contribution is pure black `(0,0,0)`,
bypassing the palette (the conclusion holds for every palette id). -/
theorem C4_iteration_loop (x y : ℝ) (maxIterations scheme : ℕ) (smoothing : Bool)
    (hc : ¬ cardioidTest x y) (hb : ¬ bulbTest x y) :
    ((sampleEval x y maxIterations scheme smoothing).escaped = false ↔
        ∀ m, 1 ≤ m → m ≤ maxIterations → normSq (orbit x y m) ≤ 256) ∧
      ((sampleEval x y maxIterations scheme smoothing).escaped = false →
        (sampleEval x y maxIterations scheme smoothing).rgb = (0, 0, 0)) := by
  have hiff := mandelIterate_escaped_iff x y maxIterations
  unfold sampleEval
  rw [if_neg hc, if_neg hb]
  dsimp only
  by_cases h : (mandelIterate x y maxIterations).iterations < maxIterations
  · rw [if_pos h]
    obtain ⟨m, hm1, hm2, hesc⟩ := hiff.mp h
    constructor
    · constructor
      · intro habs
        exact absurd habs (by simp)
      · intro hall
        exact absurd hesc (not_lt.mpr (hall m hm1 hm2))
    · intro habs
      exact absurd habs (by simp)
  · rw [if_neg h]
    refine ⟨⟨fun _ => ?_, fun _ => rfl⟩, fun _ => rfl⟩
    intro m hm1 hm2
    by_contra hgt
    exact h (hiff.mpr ⟨m, hm1, hm2, lt_of_not_le hgt⟩)

/-- Claim C4 witness: `c = (-2, 0)` passes neither interior test, and with
budget 2 the orbit (`z_1 = (-2,0)`, `z_2 = (2,0)`) never exceeds the escape
threshold, so the evaluator reports a non-escaped, black sample. -/
theorem C4_iteration_loop_witness :
    (¬ cardioidTest (-2) 0 ∧ ¬ bulbTest (-2) 0) ∧
      (((sampleEval (-2) 0 2 0 true).escaped = false ↔
          ∀ m, 1 ≤ m → m ≤ 2 → normSq (orbit (-2) 0 m) ≤ 256) ∧
        ((sampleEval (-2) 0 2 0 true).escaped = false →
          (sampleEval (-2) 0 2 0 true).rgb = (0, 0, 0))) :=
  ⟨⟨by norm_num [cardioidTest], by norm_num [bulbTest]⟩,
    C4_iteration_loop (-2) 0 2 0 true (by norm_num [cardioidTest])
      (by norm_num [bulbTest])⟩

/-! ### Color mapper bounds (claim C9) -/

lemma cos_channel_bounds (x : ℝ) :
    0 ≤ 0.5 + 0.5 * Real.cos x ∧ 0.5 + 0.5 * Real.cos x ≤ 1 := by
  have h1 := Real.neg_one_le_cos x
  have h2 := Real.cos_le_one x
  constructor <;> linarith

lemma amp_cos_bounds (amp x : ℝ) (h : 0 ≤ amp) :
    0 ≤ amp * (0.5 + 0.5 * Real.cos x) ∧ amp * (0.5 + 0.5 * Real.cos x) ≤ amp := by
  obtain ⟨h1, h2⟩ := cos_channel_bounds x
  constructor
  · exact mul_nonneg h h1
  · nlinarith

lemma ultraStep_fst (t : ℝ) (acc : ℝ × ℝ × ℝ) (i : ℕ) :
    acc.1 ≤ (ultraStep t acc i).1 ∧ (ultraStep t acc i).1 ≤ acc.1 + (0.5 : ℝ) ^ i := by
  have h := amp_cos_bounds ((0.5 : ℝ) ^ i) (6.28318 * 2 ^ i * (t + (i : ℝ) * 0.1))
    (by positivity)
  unfold ultraStep
  dsimp only
  constructor <;> linarith [h.1, h.2]

lemma ultraStep_snd (t : ℝ) (acc : ℝ × ℝ × ℝ) (i : ℕ) :
    acc.2.1 ≤ (ultraStep t acc i).2.1 ∧ (ultraStep t acc i).2.1 ≤ acc.2.1 + (0.5 : ℝ) ^ i := by
  have h := amp_cos_bounds ((0.5 : ℝ) ^ i) (6.28318 * 2 ^ i * (t + 0.1 + (i : ℝ) * 0.1))
    (by positivity)
  unfold ultraStep
  dsimp only
  constructor <;> linarith [h.1, h.2]

lemma ultraStep_trd (t : ℝ) (acc : ℝ × ℝ × ℝ) (i : ℕ) :
    acc.2.2 ≤ (ultraStep t acc i).2.2 ∧ (ultraStep t acc i).2.2 ≤ acc.2.2 + (0.5 : ℝ) ^ i := by
  have h := amp_cos_bounds ((0.5 : ℝ) ^ i) (6.28318 * 2 ^ i * (1.5 * t + 0.2 + (i : ℝ) * 0.1))
    (by positivity)
  unfold ultraStep
  dsimp only
  constructor <;> linarith [h.1, h.2]

/-- Sum of the octave amplitudes over a list of octave indices. -/
noncomputable def ampSum (l : List ℕ) : ℝ := (l.map (fun i => (0.5 : ℝ) ^ i)).sum

lemma foldl_ultra_bounds (t : ℝ) :
    ∀ (l : List ℕ) (acc : ℝ × ℝ × ℝ),
      (acc.1 ≤ (l.foldl (ultraStep t) acc).1 ∧
          (l.foldl (ultraStep t) acc).1 ≤ acc.1 + ampSum l) ∧
        (acc.2.1 ≤ (l.foldl (ultraStep t) acc).2.1 ∧
          (l.foldl (ultraStep t) acc).2.1 ≤ acc.2.1 + ampSum l) ∧
        (acc.2.2 ≤ (l.foldl (ultraStep t) acc).2.2 ∧
          (l.foldl (ultraStep t) acc).2.2 ≤ acc.2.2 + ampSum l) := by
  intro l
  induction l with
  | nil => intro acc; simp [ampSum]
  | cons i l ih =>
    intro acc
    have h1 := ultraStep_fst t acc i
    have h2 := ultraStep_snd t acc i
    have h3 := ultraStep_trd t acc i
    have ha := ih (ultraStep t acc i)
    have hs : ampSum (i :: l) = (0.5 : ℝ) ^ i + ampSum l := by simp [ampSum]
    simp only [List.foldl_cons]
    rw [hs]
    refine ⟨⟨?_, ?_⟩, ⟨?_, ?_⟩, ⟨?_, ?_⟩⟩ <;>
      linarith [ha.1.1, ha.1.2, ha.2.1.1, ha.2.1.2, ha.2.2.1, ha.2.2.2,
        h1.1, h1.2, h2.1, h2.2, h3.1, h3.2]

lemma ampSum_range4 : ampSum (List.range 4) = 1.875 := by
  rw [show List.range 4 = [0, 1, 2, 3] from rfl]
  norm_num [ampSum]

lemma ultraOctaves_bounds (t : ℝ) :
    (0 ≤ (ultraOctaves t).1 ∧ (ultraOctaves t).1 ≤ 1.875) ∧
      (0 ≤ (ultraOctaves t).2.1 ∧ (ultraOctaves t).2.1 ≤ 1.875) ∧
      (0 ≤ (ultraOctaves t).2.2 ∧ (ultraOctaves t).2.2 ≤ 1.875) := by
  have h := foldl_ultra_bounds t (List.range 4) ((0 : ℝ), (0 : ℝ), (0 : ℝ))
  rw [ampSum_range4] at h
  dsimp only at h
  unfold ultraOctaves
  refine ⟨⟨?_, ?_⟩, ⟨?_, ?_⟩, ⟨?_, ?_⟩⟩ <;>
    linarith [h.1.1, h.1.2, h.2.1.1, h.2.1.2, h.2.2.1, h.2.2.2]

lemma fireColor_bounds (u : ℝ) :
    (0 ≤ (fireColor u).1 ∧ (fireColor u).1 * 255 < 257) ∧
      (0 ≤ (fireColor u).2.1 ∧ (fireColor u).2.1 * 255 < 257) ∧
      (0 ≤ (fireColor u).2.2 ∧ (fireColor u).2.2 * 255 < 257) := by
  have hs0 : 0 ≤ Int.fract (u * 3) := Int.fract_nonneg _
  have hs1 : Int.fract (u * 3) < 1 := Int.fract_lt_one _
  unfold fireColor
  dsimp only
  split_ifs with hb1 hb2 <;>
    refine ⟨⟨?_, ?_⟩, ⟨?_, ?_⟩, ⟨?_, ?_⟩⟩ <;> dsimp only <;> nlinarith

lemma floor_channel_bounds (c : ℝ) (h0 : 0 ≤ c) (h1 : c * 255 < 257) :
    0 ≤ ⌊c * 255⌋ ∧ ⌊c * 255⌋ ≤ 256 := by
  constructor
  · exact Int.le_floor.mpr (by exact_mod_cast mul_nonneg h0 (by norm_num))
  · have h := Int.floor_lt.mpr (show c * 255 < ((257 : ℤ) : ℝ) by exact_mod_cast h1)
    omega

lemma paletteRGB_bounds (scheme : ℕ) (u : ℝ) (h0 : 0 ≤ u) (h1 : u ≤ 1) :
    (0 ≤ (paletteRGB scheme u).1 ∧ (paletteRGB scheme u).1 * 255 < 257) ∧
      (0 ≤ (paletteRGB scheme u).2.1 ∧ (paletteRGB scheme u).2.1 * 255 < 257) ∧
      (0 ≤ (paletteRGB scheme u).2.2 ∧ (paletteRGB scheme u).2.2 * 255 < 257) := by
  unfold paletteRGB
  split_ifs with hs0 hs1 hs2 hs3 hs4
  · obtain ⟨a1, a2⟩ := cos_channel_bounds (6.28318 * (u + 0.0))
    obtain ⟨b1, b2⟩ := cos_channel_bounds (6.28318 * (u + 0.1))
    obtain ⟨c1, c2⟩ := cos_channel_bounds (6.28318 * (u + 0.2))
    refine ⟨⟨?_, ?_⟩, ⟨?_, ?_⟩, ⟨?_, ?_⟩⟩ <;> dsimp only <;> linarith
  · exact fireColor_bounds u
  · refine ⟨⟨?_, ?_⟩, ⟨?_, ?_⟩, ⟨?_, ?_⟩⟩ <;> dsimp only <;> linarith
  · obtain ⟨a1, a2⟩ := cos_channel_bounds (6.28318 * u * 3)
    obtain ⟨b1, b2⟩ := cos_channel_bounds (6.28318 * (u * 3 + 0.33))
    obtain ⟨c1, c2⟩ := cos_channel_bounds (6.28318 * (u * 3 + 0.67))
    refine ⟨⟨?_, ?_⟩, ⟨?_, ?_⟩, ⟨?_, ?_⟩⟩ <;> dsimp only <;> linarith
  · refine ⟨⟨?_, ?_⟩, ⟨?_, ?_⟩, ⟨?_, ?_⟩⟩ <;> dsimp only <;> linarith
  · obtain ⟨⟨a1, a2⟩, ⟨b1, b2⟩, ⟨c1, c2⟩⟩ := ultraOctaves_bounds u
    have da0 : 0 ≤ (ultraOctaves u).1 / 1.875 := div_nonneg a1 (by norm_num)
    have da1 : (ultraOctaves u).1 / 1.875 ≤ 1 := by
      rw [div_le_one (by norm_num)]; linarith
    have db0 : 0 ≤ (ultraOctaves u).2.1 / 1.875 := div_nonneg b1 (by norm_num)
    have db1 : (ultraOctaves u).2.1 / 1.875 ≤ 1 := by
      rw [div_le_one (by norm_num)]; linarith
    have dc0 : 0 ≤ (ultraOctaves u).2.2 / 1.875 := div_nonneg c1 (by norm_num)
    have dc1 : (ultraOctaves u).2.2 / 1.875 ≤ 1 := by
      rw [div_le_one (by norm_num)]; linarith
    refine ⟨⟨?_, ?_⟩, ⟨?_, ?_⟩, ⟨?_, ?_⟩⟩ <;> dsimp only <;> linarith

lemma clamp_clamp (t : ℝ) : max 0 (min 1 (max 0 (min 1 t))) = max 0 (min 1 t) := by
  have h2 : max 0 (min 1 t) ≤ 1 := max_le (by norm_num) (min_le_left 1 t)
  have h3 : (0 : ℝ) ≤ max 0 (min 1 t) := le_max_left 0 _
  rw [min_eq_right h2, max_eq_right h3]

/-- Claim C9 as amended: `colorize` clamps its input to `[0,1]` before
evaluating the palette (re-clamping the input does not change the output),
and every returned channel is a floor-truncated integer lying in `[0, 256]`
(256 is attained: the Fire palette's green channel can exceed 255, so
`[0, 255]` is not an enclosure). -/
theorem C9_amended (t : ℝ) (scheme : ℕ) :
    getColor t scheme = getColor (max 0 (min 1 t)) scheme ∧
      (0 ≤ (getColor t scheme).1 ∧ (getColor t scheme).1 ≤ 256) ∧
      (0 ≤ (getColor t scheme).2.1 ∧ (getColor t scheme).2.1 ≤ 256) ∧
      (0 ≤ (getColor t scheme).2.2 ∧ (getColor t scheme).2.2 ≤ 256) := by
  have hu0 : (0 : ℝ) ≤ max 0 (min 1 t) := le_max_left 0 _
  have hu1 : max 0 (min 1 t) ≤ 1 := max_le (by norm_num) (min_le_left 1 t)
  obtain ⟨⟨a1, a2⟩, ⟨b1, b2⟩, ⟨c1, c2⟩⟩ :=
    paletteRGB_bounds scheme (max 0 (min 1 t)) hu0 hu1
  refine ⟨?_, ?_, ?_, ?_⟩
  · simp only [getColor]
    rw [clamp_clamp]
  · exact floor_channel_bounds _ a1 a2
  · exact floor_channel_bounds _ b1 b2
  · exact floor_channel_bounds _ c1 c2

/-- Claim C9, counterexample: the Fire palette's green channel escapes
`[0, 255]`: at `t = 0.33333` the wrapped parameter is `0.99999`, the third
ramp gives green `0.8 + 0.2*((0.99999-0.66)*3) = 1.003994`, and
`floor(1.003994 * 255) = 256 > 255`. -/
theorem C9_counterexample : ¬ ((getColor 0.33333 1).2.1 ≤ 255) := by
  have hfr : Int.fract ((0.33333 : ℝ) * 3) = 0.99999 := by
    rw [show (0.33333 : ℝ) * 3 = 0.99999 by norm_num, Int.fract]
    rw [show ⌊(0.99999 : ℝ)⌋ = 0 from Int.floor_eq_zero_iff.mpr (by norm_num)]
    norm_num
  have hclamp : max 0 (min 1 (0.33333 : ℝ)) = 0.33333 := by
    rw [min_eq_right (by norm_num), max_eq_right (by norm_num)]
  have hfire : (fireColor (0.33333 : ℝ)).2.1 = 1.003994 := by
    unfold fireColor
    rw [hfr]
    rw [if_neg (by norm_num), if_neg (by norm_num)]
    norm_num
  have hval : (getColor 0.33333 1).2.1 = 256 := by
    simp only [getColor]
    rw [hclamp]
    rw [show paletteRGB 1 (0.33333 : ℝ) = fireColor 0.33333 by
      unfold paletteRGB
      rw [if_neg (by norm_num), if_pos rfl]]
    rw [hfire]
    rw [show (1.003994 : ℝ) * 255 = 256.01847 by norm_num]
    exact Int.floor_eq_iff.mpr (by norm_num)
  rw [hval]
  norm_num

/-! ### Band-assembly divergence (claim C1) -/

lemma sampleEval_zero_rgb (x y : ℝ) (scheme : ℕ) (smoothing : Bool) :
    (sampleEval x y 0 scheme smoothing).rgb = (0, 0, 0) := by
  unfold sampleEval
  split_ifs with h1 h2
  · rfl
  · rfl
  · rfl

lemma clampU8_zero : clampU8 0 = 0 := by
  rw [clampU8, if_pos le_rfl]

lemma pixelBytes_zero_iter (p : WorkerParams) (hmi : p.maxIterations = 0)
    (ha : p.antialiasing = false) (px py : ℕ) :
    pixelBytes p px py = (0, 0, 0, 255) := by
  unfold pixelBytes
  rw [ha, hmi, show sampleOffsets false = [(0, 0)] from rfl]
  simp only [List.foldl_cons, List.foldl_nil, sampleEval_zero_rgb]
  norm_num [clampU8_zero]

/-- Claim C1 does not hold of the code: the worker writes its band's pixels at
ABSOLUTE byte offsets into a full-frame buffer, while `renderCPU`'s assembly
reads the returned buffer at band-RELATIVE offsets.  With a 1×2 canvas split
across 2 workers, band `(1, 2)` is dispatched; its worker computes the four
bytes `(0,0,0,255)` for pixel `(x=0, r=1)` (alpha byte `255` at absolute
offset 7), yet the assembled framebuffer holds `0` at offset 7 (row 1's alpha):
assembly copied the band's UNWRITTEN bytes 0..3 instead. -/
theorem C1_assembly_mismatch :
    renderCPUFramebuffer ⟨1, 2, 0, 0, 1, 0, 0, false, 0, false, false, 2⟩ 7 = 0 ∧
      workerBuffer
          (workerParamsFor ⟨1, 2, 0, 0, 1, 0, 0, false, 0, false, false, 2⟩ (1, 2)) 7 =
        255 ∧
      (1, 2) ∈ bands 2 2 := by
  have hbands : bands 2 2 = [(0, 1), (1, 2)] := rfl
  have hpb1 : ∀ px py, pixelBytes
      (workerParamsFor ⟨1, 2, 0, 0, 1, 0, 0, false, 0, false, false, 2⟩ (1, 2)) px py =
      (0, 0, 0, 255) :=
    pixelBytes_zero_iter _ rfl rfl
  have hpb0 : ∀ px py, pixelBytes
      (workerParamsFor ⟨1, 2, 0, 0, 1, 0, 0, false, 0, false, false, 2⟩ (0, 1)) px py =
      (0, 0, 0, 255) :=
    pixelBytes_zero_iter _ rfl rfl
  have hwb1 : ∀ j, workerBuffer
      (workerParamsFor ⟨1, 2, 0, 0, 1, 0, 0, false, 0, false, false, 2⟩ (1, 2)) j =
      storePixel (fun _ => 0) 4 0 0 0 255 j := by
    intro j
    unfold workerBuffer
    rw [show List.range' (workerParamsFor
        (⟨1, 2, 0, 0, 1, 0, 0, false, 0, false, false, 2⟩ : AppState) (1, 2)).startY
        ((workerParamsFor (⟨1, 2, 0, 0, 1, 0, 0, false, 0, false, false, 2⟩ : AppState)
          (1, 2)).endY -
          (workerParamsFor (⟨1, 2, 0, 0, 1, 0, 0, false, 0, false, false, 2⟩ : AppState)
            (1, 2)).startY) = [1] from rfl]
    rw [show List.range' (workerParamsFor
        (⟨1, 2, 0, 0, 1, 0, 0, false, 0, false, false, 2⟩ : AppState) (1, 2)).startX
        ((workerParamsFor (⟨1, 2, 0, 0, 1, 0, 0, false, 0, false, false, 2⟩ : AppState)
          (1, 2)).endX -
          (workerParamsFor (⟨1, 2, 0, 0, 1, 0, 0, false, 0, false, false, 2⟩ : AppState)
            (1, 2)).startX) = [0] from rfl]
    simp only [List.foldl_cons, List.foldl_nil, hpb1]
    norm_num [workerParamsFor]
  have hwb0 : ∀ j, workerBuffer
      (workerParamsFor ⟨1, 2, 0, 0, 1, 0, 0, false, 0, false, false, 2⟩ (0, 1)) j =
      storePixel (fun _ => 0) 0 0 0 0 255 j := by
    intro j
    unfold workerBuffer
    rw [show List.range' (workerParamsFor
        (⟨1, 2, 0, 0, 1, 0, 0, false, 0, false, false, 2⟩ : AppState) (0, 1)).startY
        ((workerParamsFor (⟨1, 2, 0, 0, 1, 0, 0, false, 0, false, false, 2⟩ : AppState)
          (0, 1)).endY -
          (workerParamsFor (⟨1, 2, 0, 0, 1, 0, 0, false, 0, false, false, 2⟩ : AppState)
            (0, 1)).startY) = [0] from rfl]
    rw [show List.range' (workerParamsFor
        (⟨1, 2, 0, 0, 1, 0, 0, false, 0, false, false, 2⟩ : AppState) (0, 1)).startX
        ((workerParamsFor (⟨1, 2, 0, 0, 1, 0, 0, false, 0, false, false, 2⟩ : AppState)
          (0, 1)).endX -
          (workerParamsFor (⟨1, 2, 0, 0, 1, 0, 0, false, 0, false, false, 2⟩ : AppState)
            (0, 1)).startX) = [0] from rfl]
    simp only [List.foldl_cons, List.foldl_nil, hpb0]
    norm_num [workerParamsFor]
  refine ⟨?_, ?_, ?_⟩
  · unfold renderCPUFramebuffer
    rw [hbands]
    simp only [List.map_cons, List.map_nil]
    unfold assemble
    simp only [List.foldl_cons, List.foldl_nil]
    rw [show List.range' (0 : ℕ) (1 - 0) = [0] from rfl,
      show List.range' (1 : ℕ) (2 - 1) = [1] from rfl,
      show List.range (⟨1, 2, 0, 0, 1, 0, 0, false, 0, false, false, 2⟩ : AppState).width =
        [0] from rfl]
    simp only [List.foldl_cons, List.foldl_nil]
    rw [hwb1 0, hwb1 1, hwb1 2, hwb1 3]
    simp only [storePixel, Function.update_apply]
    norm_num
  · rw [hwb1 7]
    simp only [storePixel, Function.update_apply]
    norm_num
  · rw [hbands]
    simp

end Mandelbrot
